import Mathlib

/-!
Verification development for the katdal chunked-array store, sensor cache and
correlator data sources. The Python sources are embedded shallowly: numpy
arrays become shape/dtype/element-function records, in-place mutation becomes
explicit state passing, and raised exceptions become `Except` values.
-/

namespace Katdal

/-- A numpy basic slice `start:stop:step` with non-negative fields, as passed to
`DictChunkStore.get` and `DictChunkStore.put`. -/
structure Slice where
  start : Nat
  stop : Nat
  step : Nat
deriving DecidableEq, Repr

/-- Number of indices selected by slice `s` in a dimension of size `n`,
with numpy clipping of `start` and `stop` to the dimension size. -/
def Slice.len (s : Slice) (n : Nat) : Nat :=
  (min s.stop n - min s.start n + s.step - 1) / s.step

/-- An N-dimensional array: a shape, a dtype tag and an element function from
multi-indices to values. This embeds a numpy `ndarray`. -/
structure NDArray (α : Type) where
  shape : List Nat
  dtype : Nat
  data : List Nat → α

/-- Shape of `a[slices]` for an array of shape `shape` (numpy basic indexing:
missing trailing slices leave those dimensions untouched). -/
def sliceShape : List Slice → List Nat → List Nat
  | s :: ss, n :: ns => s.len n :: sliceShape ss ns
  | [], ns => ns
  | _ :: _, [] => []

/-- Map a multi-index of the sliced view to the corresponding multi-index of
the base array (`i` in the view addresses `min start n + i * step`). -/
def sliceMap : List Slice → List Nat → List Nat → List Nat
  | s :: ss, n :: ns, i :: is => (min s.start n + i * s.step) :: sliceMap ss ns is
  | _, _, is => is

/-- Whether a base-array multi-index lies inside the region selected by the
slices (the write target of `view[:] = chunk`). -/
def coveredIdx : List Slice → List Nat → List Nat → Bool
  | s :: ss, n :: ns, i :: is =>
      decide (min s.start n ≤ i) && decide (i < min s.stop n) &&
      decide ((i - min s.start n) % s.step = 0) && coveredIdx ss ns is
  | _, _, _ => true

/-- Map a covered base-array multi-index back to the multi-index of the chunk
being written. -/
def unmapIdx : List Slice → List Nat → List Nat → List Nat
  | s :: ss, n :: ns, i :: is => (i - min s.start n) / s.step :: unmapIdx ss ns is
  | _, _, is => is

/-- The view `a[slices]` produced by numpy basic indexing. -/
def ndindex {α : Type} (a : NDArray α) (slices : List Slice) : NDArray α :=
  ⟨sliceShape slices a.shape, a.dtype, fun idx => a.data (sliceMap slices a.shape idx)⟩

/-- The array obtained from `a` by the in-place assignment
`a[slices][:] = chunk` (elements in the selected region are replaced by the
corresponding chunk elements, all others are untouched). -/
def setSlice {α : Type} (a : NDArray α) (slices : List Slice) (chunk : NDArray α) : NDArray α :=
  ⟨a.shape, a.dtype, fun idx =>
    if coveredIdx slices a.shape idx then chunk.data (unmapIdx slices a.shape idx)
    else a.data idx⟩

/-- A multi-index is valid for a shape when it has one in-bounds entry per
dimension. -/
def idxValid : List Nat → List Nat → Bool
  | [], [] => true
  | i :: is, n :: ns => decide (i < n) && idxValid is ns
  | _, _ => false

/-- Unit-step, in-bounds slices: one slice per dimension, each with `step = 1`,
`start ≤ stop` and `stop` within the dimension size. -/
def slicesValid : List Slice → List Nat → Bool
  | [], [] => true
  | s :: ss, n :: ns =>
      decide (s.step = 1) && decide (s.start ≤ s.stop) && decide (s.stop ≤ n) &&
      slicesValid ss ns
  | _, _ => false

/-- Extensional equality of arrays: same shape, same dtype, and equal data at
every valid multi-index (the meaning of numpy array equality). -/
def NDEq {α : Type} (a b : NDArray α) : Prop :=
  a.shape = b.shape ∧ a.dtype = b.dtype ∧
    ∀ idx, idxValid idx a.shape = true → a.data idx = b.data idx

/-- The chunk-store error taxonomy of `katdal.chunkstore`. -/
inductive ChunkError
  | chunkNotFound (msg : String)
  | badChunk (msg : String)
deriving DecidableEq, Repr

/-- Python exception kinds translated by the error map of
`DictChunkStore.__init__`. -/
inductive PyExc
  | keyError (msg : String)
  | indexError (msg : String)
deriving DecidableEq, Repr

/-- The error map `dict(KeyError=ChunkNotFound, IndexError=ChunkNotFound)`
installed by `DictChunkStore.__init__`, applied by the standard error handler
to a failing backend access on the named chunk. -/
def dict_error_map (e : PyExc) (chunkId : String) : ChunkError :=
  match e with
  | .keyError _ => .chunkNotFound ("Chunk " ++ chunkId ++ " not found")
  | .indexError _ => .chunkNotFound ("Chunk " ++ chunkId ++ " not found")

/-- Modelled from the spec: the chunk identity built by the `ChunkStore` base
class (absent from src/) joins the array name and the slice coordinates. -/
def chunkName (arrayName : String) (slices : List Slice) : String :=
  arrayName ++ "/" ++
    String.intercalate "_" (slices.map fun s => toString s.start ++ ":" ++ toString s.stop)

/-- Modelled from the spec: `ChunkStore.chunk_metadata` of the base class
(absent from src/) validates that every range is unit-step, derives the target
shape from the slices, and, on the write path where a chunk is supplied,
fails with BadChunk when the chunk shape disagrees with that target shape or
the chunk dtype disagrees with a requested dtype. Bounds are not checkable
here since the array itself is not available to this method. -/
def chunk_metadata {α : Type} (arrayName : String) (slices : List Slice)
    (dtype : Option Nat) (chunk : Option (NDArray α)) :
    Except ChunkError (String × List Nat) :=
  if slices.any fun s => s.step ≠ 1 then
    .error (.badChunk ("Chunk " ++ chunkName arrayName slices ++ ": non-unit step in slices"))
  else
    let shape := slices.map fun s => s.stop - s.start
    match chunk with
    | none => .ok (chunkName arrayName slices, shape)
    | some c =>
      if c.shape ≠ shape then
        .error (.badChunk ("Chunk " ++ chunkName arrayName slices ++
          ": shape differs from that implied by slices"))
      else
        match dtype with
        | some dt =>
          if c.dtype ≠ dt then
            .error (.badChunk ("Chunk " ++ chunkName arrayName slices ++ ": dtype mismatch"))
          else .ok (chunkName arrayName slices, shape)
        | none => .ok (chunkName arrayName slices, shape)

/-- A store of chunks based on a dict of arrays (`DictChunkStore`): the
`arrays` dict is embedded as an association list from names to arrays. -/
structure DictChunkStore (α : Type) where
  arrays : List (String × NDArray α)

/-- The dtype-mismatch message raised by `DictChunkStore.get`
(chunkstore_dict.py lines 43-46): it names the chunk, the requested dtype and
the actual dtype. -/
def dtypeMismatchMsg (chunkId : String) (requested actual : Nat) : String :=
  "Chunk " ++ chunkId ++ ": requested dtype " ++ toString requested ++
    " differs from actual dtype " ++ toString actual

/-- `DictChunkStore.get`: validate the request via `chunk_metadata`, look the
array up in the dict (a missing key is a `KeyError`, translated through the
error map), take the requested slice view, and reject a dtype mismatch with
BadChunk. -/
def DictChunkStore.get {α : Type} (st : DictChunkStore α) (arrayName : String)
    (slices : List Slice) (dtype : Nat) : Except ChunkError (NDArray α) :=
  match chunk_metadata arrayName slices (some dtype) (none : Option (NDArray α)) with
  | .error e => .error e
  | .ok (chunkId, _) =>
    match st.arrays.lookup arrayName with
    | none => .error (dict_error_map (.keyError arrayName) chunkId)
    | some arr =>
      let chunk := ndindex arr slices
      if dtype ≠ chunk.dtype then
        .error (.badChunk (dtypeMismatchMsg chunkId dtype chunk.dtype))
      else .ok chunk

/-- `DictChunkStore.put`: validate via `chunk_metadata` with the chunk
supplied, then perform `self.get(array_name, slices, chunk.dtype)[:] = chunk`.
The result pairs the outcome with the store state after the call, so that the
mutation (which the code performs only after all checks passed) is visible. -/
def DictChunkStore.put {α : Type} (st : DictChunkStore α) (arrayName : String)
    (slices : List Slice) (chunk : NDArray α) :
    Except ChunkError Unit × DictChunkStore α :=
  match chunk_metadata arrayName slices (none : Option Nat) (some chunk) with
  | .error e => (.error e, st)
  | .ok _ =>
    match st.get arrayName slices chunk.dtype with
    | .error e => (.error e, st)
    | .ok _ =>
      (.ok (),
        ⟨st.arrays.map fun p =>
          if p.1 = arrayName then (p.1, setSlice p.2 slices chunk) else p⟩)

/-! H5DataV3 weight selection (h5datav3.py lines 578-599 and 728-733). -/

/-- Dtype tag used for numpy float32 in this development. -/
def float32 : Nat := 32

/-- The default weight name table `WEIGHT_NAMES` of h5datav3.py. -/
def WEIGHT_NAMES : List String := ["precision"]

/-- Argument accepted by the `_weights_keep` setter: the string `all`, a
comma-separated string of names, or a sequence of names. -/
inductive WeightNamesArg
  | all
  | commaString (s : String)
  | names (l : List String)

/-- Warning logged for a weight name that is not in the known-weights table
(h5datav3.py lines 595-596). -/
def warnNotLegitWeight (name : String) : String :=
  name ++ " is not a legitimate weight type for this file"

/-- Warning logged when no valid weights were selected
(h5datav3.py line 598). -/
def warnNoValidWeights : String :=
  "No valid weights were selected - setting all weights to 1.0 by default"

/-- Resolution of the `names` argument of the `_weights_keep` setter: the
string `all` means all known weights, a plain string is split on commas, and
a sequence is used as is (h5datav3.py lines 587-588). -/
def resolveWeightNames (known_weights : List String) (arg : WeightNamesArg) : List String :=
  match arg with
  | .all => known_weights
  | .commaString s => s.splitOn ","
  | .names l => l

/-- The selection loop of the `_weights_keep` setter (h5datav3.py lines
590-596): collect the index of each requested name in the known-weights
table, logging a warning for each name that is not in the table. -/
def weightSelection (known_weights : List String) (names : List String) :
    List Nat × List String :=
  names.foldl
    (fun acc name =>
      match known_weights.findIdx? fun w => w = name with
      | some i => (acc.1 ++ [i], acc.2)
      | none => (acc.1, acc.2 ++ [warnNotLegitWeight name]))
    ([], [])

/-- The `_weights_keep` setter of H5DataV3: resolve the requested names to an
index list into the known-weights table, logging a warning per unknown name,
and logging a fallback warning when the table is non-empty but the selection
came out empty. Returns the selection together with the logged warnings. -/
def weights_keep_set (known_weights : List String) (arg : WeightNamesArg) :
    List Nat × List String :=
  let step := weightSelection known_weights (resolveWeightNames known_weights arg)
  if known_weights ≠ [] ∧ step.1 = [] then (step.1, step.2 ++ [warnNoValidWeights])
  else step

/-- The `extract_weights` transform of the H5DataV3 weights property
(h5datav3.py lines 729-731): cast the stored weights to float32 when a weight
type is selected, otherwise replace them by an all-ones array of the same
shape. -/
def extract_weights (weights_select : List Nat) (w : NDArray Rat) : NDArray Rat :=
  if weights_select ≠ [] then ⟨w.shape, float32, w.data⟩
  else ⟨w.shape, float32, fun _ => 1⟩

/-! Sensor cache lookup with fallback, used by the H5DataV3 temperature,
pressure, humidity and wind properties (h5datav3.py lines 757-779). -/

/-- The sensor lookup error raised when no sensor name resolves. -/
inductive SensorError
  | sensorLookupFailure (msg : String)
deriving DecidableEq, Repr

/-- A sensor cache, embedded as its name-resolution function (raw sensors and
virtual sensors combined): a name either resolves to a value or fails. -/
structure SensorCache (V : Type) where
  resolve : String → Option V

/-- Modelled from the spec: `SensorCache.get_with_fallback` of sensordata.py
(absent from src/) tries each candidate sensor name in the given order,
returns the value of the first name that resolves, and fails with a sensor
lookup error when none resolve. -/
def SensorCache.get_with_fallback {V : Type} (cache : SensorCache V)
    (logicalName : String) : List String → Except SensorError V
  | [] => .error (.sensorLookupFailure ("Could not find any of the sensors for " ++ logicalName))
  | n :: rest =>
    match cache.resolve n with
    | some v => .ok v
    | none => cache.get_with_fallback logicalName rest

/-! CategoricalData and its align operation, used on the label and target
sensors against the scan events in H5DataV3.__init__ (lines 456 and 470). -/

/-- Distance between two natural numbers. -/
def natDist (a b : Nat) : Nat := (a - b) + (b - a)

/-- Modelled from the spec: the boundary of `reference_events` nearest to `e`,
with ties broken toward the earlier (smaller) boundary; with no reference
boundaries, `e` itself. -/
def snap (ref : List Nat) (e : Nat) : Nat :=
  match ref with
  | [] => e
  | r :: rs =>
    rs.foldl
      (fun best x =>
        if natDist e x < natDist e best then x
        else if natDist e x = natDist e best ∧ x < best then x
        else best)
      r

/-- Snap every element except the last one of a list of boundaries. -/
def snapInternal (ref : List Nat) : List Nat → List Nat
  | [] => []
  | [e] => [e]
  | e :: rest => snap ref e :: snapInternal ref rest

/-- The final event of a boundary list (0 for an empty list). -/
def lastEvent : List Nat → Nat
  | [] => 0
  | [e] => e
  | _ :: rest => lastEvent rest

/-- A compressed piecewise-constant sequence: `events` are the run boundaries
and `values` the run values (`values.length + 1 = events.length`). -/
structure CategoricalData (V : Type) where
  events : List Nat
  values : List V
deriving Repr

/-- Burst an events/values pair into runs `(start, stop, value)`. -/
def toRuns {V : Type} : List Nat → List V → List (Nat × Nat × V)
  | e1 :: e2 :: es, v :: vs => (e1, e2, v) :: toRuns (e2 :: es) vs
  | _, _ => []

/-- Rebuild the events list from a run list, closing with the final event. -/
def fromRunsEvents {V : Type} (lastEvent : Nat) : List (Nat × Nat × V) → List Nat
  | [] => [lastEvent]
  | r :: rs => r.1 :: fromRunsEvents lastEvent rs

/-- Rebuild the values list from a run list. -/
def fromRunsValues {V : Type} (runs : List (Nat × Nat × V)) : List V :=
  runs.map fun r => r.2.2

/-- Modelled from the spec: `CategoricalData.align` of categorical.py (absent
from src/) snaps every internal boundary to the nearest boundary in
`reference_events` (ties toward the earlier boundary), keeping the first and
final events, and drops the runs that become empty. -/
def CategoricalData.align {V : Type} (c : CategoricalData V) (ref : List Nat) :
    CategoricalData V :=
  match c.events with
  | [] => c
  | e0 :: rest =>
    let evs := e0 :: snapInternal ref rest
    let runs := (toRuns evs c.values).filter fun r => r.1 < r.2.1
    ⟨fromRunsEvents (lastEvent evs) runs, fromRunsValues runs⟩

/-! Correlator data sources (datasources.py). -/

/-- Broadcast two dimension sizes (numpy rule: equal, or one of them 1). -/
def broadcastDim (a b : Nat) : Option Nat :=
  if a = b then some a
  else if a = 1 then some b
  else if b = 1 then some a
  else none

/-- Broadcast paired dimension sizes, failing when any pair is
incompatible. -/
def broadcastDims : List (Nat × Nat) → Option (List Nat)
  | [] => some []
  | p :: ps =>
    match broadcastDim p.1 p.2, broadcastDims ps with
    | some d, some rest => some (d :: rest)
    | _, _ => none

/-- Broadcast two shapes, aligning from the trailing dimensions and padding
the shorter one with 1s. -/
def broadcastShape (s t : List Nat) : Option (List Nat) :=
  let n := max s.length t.length
  let sPad := List.replicate (n - s.length) 1 ++ s
  let tPad := List.replicate (n - t.length) 1 ++ t
  broadcastDims (sPad.zip tPad)

/-- Index an operand of a broadcast operation: align the result index from the
trailing dimensions and send broadcast (size-1) dimensions to index 0. -/
def broadcastIndex (shape : List Nat) (idx : List Nat) : List Nat :=
  (idx.drop (idx.length - shape.length)).zipWith
    (fun i n => if n = 1 then 0 else i) shape

/-- Elementwise product of two arrays under numpy broadcasting. -/
def broadcastMul (a b : NDArray Rat) : Option (NDArray Rat) :=
  (broadcastShape a.shape b.shape).map fun sh =>
    ⟨sh, a.dtype, fun idx =>
      a.data (broadcastIndex a.shape idx) * b.data (broadcastIndex b.shape idx)⟩

/-- The view `a[..., np.newaxis]`: a new trailing axis of size 1. -/
def expandDimsLast (a : NDArray Rat) : NDArray Rat :=
  ⟨a.shape ++ [1], a.dtype, fun idx => a.data idx.dropLast⟩

/-- Correlator data in the form of visibilities, flags and weights
(datasources.py). The constructor check lives in `VisFlagsWeights.make`. -/
structure VisFlagsWeights where
  vis : NDArray Rat
  flags : NDArray Rat
  weights : NDArray Rat
  name : String

/-- `VisFlagsWeights.__init__`: reject construction with a ValueError when the
three shapes are not all equal (datasources.py lines 72-79). -/
def VisFlagsWeights.make (vis flags weights : NDArray Rat) (name : String) :
    Except String VisFlagsWeights :=
  if vis.shape = flags.shape ∧ flags.shape = weights.shape then
    .ok ⟨vis, flags, weights, name⟩
  else
    .error ("Shapes of vis, flags and weights differ")

/-- The `shape` property of VisFlagsWeights (datasources.py lines 81-83). -/
def VisFlagsWeights.shape (v : VisFlagsWeights) : List Nat :=
  v.vis.shape

/-- Per-array layout information from `chunk_info` (dtype and shape). -/
structure ChunkInfo where
  shape : List Nat
  dtype : Nat

/-- Modelled from the spec: `ChunkStore.join` of the base class (absent from
src/) joins name parts with the reserved separator. -/
def joinName (base part : String) : String := base ++ "/" ++ part

/-- Modelled from the spec: `ChunkStore.get_dask_array` (absent from src/)
returns a lazily-chunked array handle whose shape and dtype come from the
per-array layout descriptor and whose elements are fetched from the store. -/
def get_dask_array (read : List Nat → Rat) (info : ChunkInfo) : NDArray Rat :=
  ⟨info.shape, info.dtype, read⟩

/-- `ChunkStoreVisFlagsWeights.__init__` (datasources.py lines 98-109): build
a dask array per `chunk_info` entry, pick visibilities and flags, combine the
low-resolution weights with the high-resolution per-channel weights over a new
trailing axis, and construct the VisFlagsWeights. A missing `chunk_info` entry
is a KeyError and an impossible broadcast is a ValueError, both embedded as
error strings. -/
def ChunkStoreVisFlagsWeights.make (read : String → List Nat → Rat)
    (baseName : String) (chunkInfo : List (String × ChunkInfo)) :
    Except String VisFlagsWeights := do
  let getArr : String → Except String (NDArray Rat) := fun array =>
    match chunkInfo.lookup array with
    | none => .error ("KeyError: " ++ array)
    | some info => .ok (get_dask_array (read (joinName baseName array)) info)
  let vis ← getArr "correlator_data"
  let flags ← getArr "flags"
  let w ← getArr "weights"
  let wc ← getArr "weights_channel"
  match broadcastMul w (expandDimsLast wc) with
  | none => .error "ValueError: operands could not be broadcast together"
  | some weights => VisFlagsWeights.make vis flags weights baseName

/-! Supporting lemmas for the chunk store. -/

theorem slicesValid_steps : ∀ {slices : List Slice} {shape : List Nat},
    slicesValid slices shape = true → ∀ s ∈ slices, s.step = 1
  | [], [], _ => by intro s hs; cases hs
  | [], _ :: _, h => by simp [slicesValid] at h
  | _ :: _, [], h => by simp [slicesValid] at h
  | s :: ss, n :: ns, h => by
    simp only [slicesValid, Bool.and_eq_true, decide_eq_true_eq] at h
    intro t ht
    rcases List.mem_cons.mp ht with h0 | h0
    · exact h0 ▸ h.1.1.1
    · exact slicesValid_steps h.2 t h0

theorem sliceShape_eq_map : ∀ {slices : List Slice} {shape : List Nat},
    slicesValid slices shape = true →
    sliceShape slices shape = slices.map fun s => s.stop - s.start
  | [], [], _ => rfl
  | [], _ :: _, h => by simp [slicesValid] at h
  | _ :: _, [], h => by simp [slicesValid] at h
  | s :: ss, n :: ns, h => by
    simp only [slicesValid, Bool.and_eq_true, decide_eq_true_eq] at h
    obtain ⟨⟨⟨h1, h2⟩, h3⟩, h4⟩ := h
    simp only [sliceShape, List.map_cons]
    refine congrArg₂ _ ?_ (sliceShape_eq_map h4)
    simp only [Slice.len, h1, Nat.div_one]
    omega

theorem coveredIdx_sliceMap : ∀ {slices : List Slice} {shape : List Nat} {idx : List Nat},
    slicesValid slices shape = true →
    idxValid idx (slices.map fun s => s.stop - s.start) = true →
    coveredIdx slices shape (sliceMap slices shape idx) = true
  | [], [], idx, _, _ => by simp [coveredIdx]
  | [], _ :: _, _, h, _ => by simp [slicesValid] at h
  | _ :: _, [], _, h, _ => by simp [slicesValid] at h
  | s :: ss, n :: ns, [], _, hidx => by simp [idxValid] at hidx
  | s :: ss, n :: ns, i :: is, h, hidx => by
    simp only [slicesValid, Bool.and_eq_true, decide_eq_true_eq] at h
    obtain ⟨⟨⟨h1, h2⟩, h3⟩, h4⟩ := h
    simp only [List.map_cons, idxValid, Bool.and_eq_true, decide_eq_true_eq] at hidx
    simp only [sliceMap, coveredIdx, Bool.and_eq_true, decide_eq_true_eq]
    refine ⟨⟨⟨by omega, ?_⟩, by simp [h1, Nat.mod_one]⟩, coveredIdx_sliceMap h4 hidx.2⟩
    have hmin1 : min s.start n = s.start := by omega
    have hmin2 : min s.stop n = s.stop := by omega
    rw [hmin1, hmin2, h1]
    omega

theorem unmapIdx_sliceMap : ∀ {slices : List Slice} {shape : List Nat} {idx : List Nat},
    slicesValid slices shape = true →
    idxValid idx (slices.map fun s => s.stop - s.start) = true →
    unmapIdx slices shape (sliceMap slices shape idx) = idx
  | [], [], idx, _, hidx => by
    cases idx with
    | nil => rfl
    | cons i is => simp [idxValid] at hidx
  | [], _ :: _, _, h, _ => by simp [slicesValid] at h
  | _ :: _, [], _, h, _ => by simp [slicesValid] at h
  | s :: ss, n :: ns, [], _, hidx => by simp [idxValid] at hidx
  | s :: ss, n :: ns, i :: is, h, hidx => by
    simp only [slicesValid, Bool.and_eq_true, decide_eq_true_eq] at h
    obtain ⟨⟨⟨h1, h2⟩, h3⟩, h4⟩ := h
    simp only [List.map_cons, idxValid, Bool.and_eq_true, decide_eq_true_eq] at hidx
    simp only [sliceMap, unmapIdx]
    refine congrArg₂ _ ?_ (unmapIdx_sliceMap h4 hidx.2)
    rw [h1]
    omega

theorem lookup_map_update {α : Type} (a : String) (f : NDArray α → NDArray α) :
    ∀ l : List (String × NDArray α),
      (l.map fun p => if p.1 = a then (p.1, f p.2) else p).lookup a = (l.lookup a).map f
  | [] => rfl
  | (k, v) :: rest => by
    simp only [List.map_cons]
    by_cases hk : k = a
    · subst hk
      rw [show (if (k, v).1 = k then ((k, v).1, f (k, v).2) else (k, v)) = (k, f v) from
        if_pos rfl]
      simp only [List.lookup]
      rw [show (k == k) = true from beq_self_eq_true k]
      rfl
    · rw [show (if (k, v).1 = a then ((k, v).1, f (k, v).2) else (k, v)) = (k, v) from
        if_neg hk]
      simp only [List.lookup]
      rw [show (a == k) = false from beq_eq_false_iff_ne.mpr (Ne.symm hk)]
      exact lookup_map_update a f rest

theorem get_ok {α : Type} (st : DictChunkStore α) (a : String) (arr : NDArray α)
    (r : List Slice) (dt : Nat)
    (harr : st.arrays.lookup a = some arr)
    (hsteps : ∀ s ∈ r, s.step = 1)
    (hdt : dt = arr.dtype) :
    st.get a r dt = .ok (ndindex arr r) := by
  subst hdt
  have hcond : ¬ ∃ s ∈ r, ¬ s.step = 1 := by push_neg; exact hsteps
  simp [DictChunkStore.get, chunk_metadata, hcond, harr, ndindex]

theorem put_ok {α : Type} (st : DictChunkStore α) (a : String) (arr : NDArray α)
    (r : List Slice) (x : NDArray α)
    (harr : st.arrays.lookup a = some arr)
    (hsteps : ∀ s ∈ r, s.step = 1)
    (hshape : x.shape = r.map fun s => s.stop - s.start)
    (hdtype : x.dtype = arr.dtype) :
    st.put a r x =
      (.ok (), ⟨st.arrays.map fun p => if p.1 = a then (p.1, setSlice p.2 r x) else p⟩) := by
  have hcond : ¬ ∃ s ∈ r, ¬ s.step = 1 := by push_neg; exact hsteps
  have hmeta : chunk_metadata a r (none : Option Nat) (some x) =
      .ok (chunkName a r, r.map fun s => s.stop - s.start) := by
    simp [chunk_metadata, hcond, hshape]
  simp only [DictChunkStore.put, hmeta, get_ok st a arr r x.dtype harr hsteps hdtype]

/-- C1: for every store, array name `a`, in-bounds unit-step slice list `r`,
and array `x` whose shape matches `r` and whose dtype matches the stored
array, `put(a, r, x)` succeeds and a following `get(a, r, x.dtype)` returns
data equal to `x`. -/
theorem C1_put_get_roundtrip {α : Type} (st : DictChunkStore α) (a : String)
    (arr : NDArray α) (r : List Slice) (x : NDArray α)
    (harr : st.arrays.lookup a = some arr)
    (hr : slicesValid r arr.shape = true)
    (hshape : x.shape = r.map fun s => s.stop - s.start)
    (hdtype : x.dtype = arr.dtype) :
    ∃ st2, st.put a r x = (.ok (), st2) ∧
      ∃ y, st2.get a r x.dtype = .ok y ∧ NDEq y x := by
  have hsteps := slicesValid_steps hr
  refine ⟨_, put_ok st a arr r x harr hsteps hshape hdtype, ?_⟩
  have harr2 :
      (List.map (fun p => if p.1 = a then (p.1, setSlice p.2 r x) else p) st.arrays).lookup a =
        some (setSlice arr r x) := by
    rw [lookup_map_update a (fun arr0 => setSlice arr0 r x) st.arrays, harr]
    rfl
  refine ⟨ndindex (setSlice arr r x) r,
    get_ok _ a (setSlice arr r x) r x.dtype harr2 hsteps hdtype, ?_, hdtype.symm, ?_⟩
  · show sliceShape r arr.shape = x.shape
    rw [sliceShape_eq_map hr, hshape]
  · intro idx hidx
    have hidx2 : idxValid idx (r.map fun s => s.stop - s.start) = true := by
      have : sliceShape r arr.shape = r.map fun s => s.stop - s.start := sliceShape_eq_map hr
      simpa [ndindex, setSlice, this] using hidx
    show (setSlice arr r x).data (sliceMap r arr.shape idx) = x.data idx
    simp only [setSlice, coveredIdx_sliceMap hr hidx2, if_true,
      unmapIdx_sliceMap hr hidx2]

/-- Witness for C1 at a concrete store: a 2x3 array of naturals, written on
the sub-block rows 0:2, columns 1:3. -/
theorem C1_put_get_roundtrip_witness :
    ∃ st2,
      DictChunkStore.put
        ⟨[("vis", ⟨[2, 3], 7, fun idx => idx.headD 0 + 10 * idx.getLastD 0⟩)]⟩
        "vis" [⟨0, 2, 1⟩, ⟨1, 3, 1⟩] ⟨[2, 2], 7, fun _ => 99⟩ = (.ok (), st2) ∧
      ∃ y, st2.get "vis" [⟨0, 2, 1⟩, ⟨1, 3, 1⟩]
          (NDArray.dtype ⟨[2, 2], 7, fun _ => (99 : Nat)⟩) = .ok y ∧
        NDEq y ⟨[2, 2], 7, fun _ => 99⟩ :=
  C1_put_get_roundtrip
    ⟨[("vis", ⟨[2, 3], 7, fun idx => idx.headD 0 + 10 * idx.getLastD 0⟩)]⟩
    "vis" ⟨[2, 3], 7, fun idx => idx.headD 0 + 10 * idx.getLastD 0⟩
    [⟨0, 2, 1⟩, ⟨1, 3, 1⟩] ⟨[2, 2], 7, fun _ => 99⟩
    rfl (by decide) rfl rfl

/-- C2: for the in-memory DictChunkStore, for every stored array and every
in-bounds unit-step slices tuple whose requested dtype equals the stored
dtype, `get` returns exactly the sub-array obtained by directly indexing the
stored reference array with those slices. -/
theorem C2_get_direct_indexing {α : Type} (st : DictChunkStore α) (a : String)
    (arr : NDArray α) (slices : List Slice)
    (harr : st.arrays.lookup a = some arr)
    (hv : slicesValid slices arr.shape = true) :
    st.get a slices arr.dtype = .ok (ndindex arr slices) :=
  get_ok st a arr slices arr.dtype harr (slicesValid_steps hv) rfl

/-- Witness for C2, scenario A of the spec: an array of shape (4, 2, 1) read
at the sub-block (1:3, 0:2, 0:1). -/
theorem C2_get_direct_indexing_witness :
    DictChunkStore.get
        ⟨[("vis", ⟨[4, 2, 1], 3, fun idx => 100 * idx.headD 0 + (idx.tail).headD 0⟩)]⟩
        "vis" [⟨1, 3, 1⟩, ⟨0, 2, 1⟩, ⟨0, 1, 1⟩]
        (NDArray.dtype ⟨[4, 2, 1], 3, fun idx => 100 * idx.headD 0 + (idx.tail).headD 0⟩) =
      .ok (ndindex ⟨[4, 2, 1], 3, fun idx => 100 * idx.headD 0 + (idx.tail).headD 0⟩
        [⟨1, 3, 1⟩, ⟨0, 2, 1⟩, ⟨0, 1, 1⟩]) :=
  C2_get_direct_indexing
    ⟨[("vis", ⟨[4, 2, 1], 3, fun idx => 100 * idx.headD 0 + (idx.tail).headD 0⟩)]⟩
    "vis" ⟨[4, 2, 1], 3, fun idx => 100 * idx.headD 0 + (idx.tail).headD 0⟩
    [⟨1, 3, 1⟩, ⟨0, 2, 1⟩, ⟨0, 1, 1⟩] rfl (by decide)

/-- C3: `get` fails with BadChunk whenever any requested range has a non-unit
step; and whenever the stored data has a dtype different from the requested
one, it fails with a BadChunk whose message names the chunk and both
dtypes. -/
theorem C3_get_badchunk {α : Type} (st : DictChunkStore α) (a : String)
    (slices : List Slice) (dt : Nat) :
    ((∃ s ∈ slices, s.step ≠ 1) → ∃ m, st.get a slices dt = .error (.badChunk m)) ∧
    (∀ arr, st.arrays.lookup a = some arr → (∀ s ∈ slices, s.step = 1) →
      arr.dtype ≠ dt →
      st.get a slices dt =
        .error (.badChunk (dtypeMismatchMsg (chunkName a slices) dt arr.dtype))) := by
  constructor
  · intro hbad
    exact ⟨"Chunk " ++ chunkName a slices ++ ": non-unit step in slices",
      by simp [DictChunkStore.get, chunk_metadata, hbad]⟩
  · intro arr harr hsteps hne
    have hcond : ¬ ∃ s ∈ slices, ¬ s.step = 1 := by push_neg; exact hsteps
    simp [DictChunkStore.get, chunk_metadata, hcond, harr, ndindex, Ne.symm hne]

/-- Witness for C3: a read with step 2 fails with BadChunk, and a read of an
int-tagged array with a float-tagged dtype fails with the dtype-mismatch
BadChunk message. -/
theorem C3_get_badchunk_witness :
    (∃ m, DictChunkStore.get ⟨[("x", ⟨[4], 3, fun _ => (0 : Nat)⟩)]⟩ "x" [⟨0, 4, 2⟩] 3 =
      .error (.badChunk m)) ∧
    DictChunkStore.get ⟨[("x", ⟨[4], 3, fun _ => (0 : Nat)⟩)]⟩ "x" [⟨0, 4, 1⟩] 5 =
      .error (.badChunk (dtypeMismatchMsg (chunkName "x" [⟨0, 4, 1⟩]) 5 3)) :=
  ⟨(C3_get_badchunk ⟨[("x", ⟨[4], 3, fun _ => (0 : Nat)⟩)]⟩ "x" [⟨0, 4, 2⟩] 3).1
      ⟨⟨0, 4, 2⟩, by simp, by decide⟩,
    (C3_get_badchunk ⟨[("x", ⟨[4], 3, fun _ => (0 : Nat)⟩)]⟩ "x" [⟨0, 4, 1⟩] 5).2
      ⟨[4], 3, fun _ => 0⟩ rfl (by decide) (by decide)⟩

/-- C4: `put` fails with ChunkNotFound when the array name is unknown (the
dict KeyError being translated through the error map installed at
construction, which sends both KeyError and IndexError to ChunkNotFound), and
fails with BadChunk when the chunk shape disagrees with the shape implied by
the slices. -/
theorem C4_put_errors {α : Type} (st : DictChunkStore α) (a : String)
    (slices : List Slice) (chunk : NDArray α) :
    ((∀ s ∈ slices, s.step = 1) →
      chunk.shape = (slices.map fun s => s.stop - s.start) →
      st.arrays.lookup a = none →
      ∃ m, (st.put a slices chunk).1 = .error (.chunkNotFound m)) ∧
    (chunk.shape ≠ (slices.map fun s => s.stop - s.start) →
      ∃ m, (st.put a slices chunk).1 = .error (.badChunk m)) ∧
    (∀ e chunkId, ∃ m, dict_error_map e chunkId = .chunkNotFound m) := by
  refine ⟨?_, ?_, ?_⟩
  · intro hsteps hshape hnone
    have hcond : ¬ ∃ s ∈ slices, ¬ s.step = 1 := by push_neg; exact hsteps
    exact ⟨"Chunk " ++ chunkName a slices ++ " not found", by
      simp [DictChunkStore.put, chunk_metadata, hcond, hshape, DictChunkStore.get,
        hnone, dict_error_map]⟩
  · intro hshape
    by_cases hbad : ∃ s ∈ slices, ¬ s.step = 1
    · exact ⟨"Chunk " ++ chunkName a slices ++ ": non-unit step in slices",
        by simp [DictChunkStore.put, chunk_metadata, hbad]⟩
    · exact ⟨"Chunk " ++ chunkName a slices ++ ": shape differs from that implied by slices",
        by simp [DictChunkStore.put, chunk_metadata, hbad, hshape]⟩
  · intro e chunkId
    cases e <;> exact ⟨_, rfl⟩

/-- Witness for C4: a put to an absent array name fails with ChunkNotFound,
and a put whose chunk shape disagrees with the slices fails with BadChunk. -/
theorem C4_put_errors_witness :
    (∃ m, (DictChunkStore.put ⟨[]⟩ "y" [⟨0, 2, 1⟩] ⟨[2], 3, fun _ => (0 : Nat)⟩).1 =
      .error (.chunkNotFound m)) ∧
    (∃ m, (DictChunkStore.put ⟨[]⟩ "y" [⟨0, 2, 1⟩] ⟨[3], 3, fun _ => (0 : Nat)⟩).1 =
      .error (.badChunk m)) :=
  ⟨(C4_put_errors ⟨[]⟩ "y" [⟨0, 2, 1⟩] ⟨[2], 3, fun _ => (0 : Nat)⟩).1
      (by decide) (by decide) rfl,
    (C4_put_errors ⟨[]⟩ "y" [⟨0, 2, 1⟩] ⟨[3], 3, fun _ => (0 : Nat)⟩).2.1 (by decide)⟩

/-- C5: whenever `put` fails (with ChunkNotFound or BadChunk), the store is
left exactly as it was before the call: the code validates and reads before
its single mutation, so a failed call mutates nothing. -/
theorem C5_put_failure_no_mutation {α : Type} (st : DictChunkStore α) (a : String)
    (slices : List Slice) (chunk : NDArray α) (e : ChunkError)
    (hfail : (st.put a slices chunk).1 = .error e) :
    (st.put a slices chunk).2 = st := by
  rcases hm : chunk_metadata a slices (none : Option Nat) (some chunk) with e1 | v
  · simp [DictChunkStore.put, hm]
  · rcases hg : st.get a slices chunk.dtype with e2 | w
    · simp [DictChunkStore.put, hm, hg]
    · simp [DictChunkStore.put, hm, hg] at hfail

/-- Witness for C5: a failed put to an empty store leaves the store equal to
its original state. -/
theorem C5_put_failure_no_mutation_witness :
    ((⟨[]⟩ : DictChunkStore Nat).put "y" [⟨0, 2, 1⟩] ⟨[2], 3, fun _ => 0⟩).2 = ⟨[]⟩ :=
  C5_put_failure_no_mutation ⟨[]⟩ "y" [⟨0, 2, 1⟩] ⟨[2], 3, fun _ => 0⟩
    (.chunkNotFound ("Chunk " ++ chunkName "y" [⟨0, 2, 1⟩] ++ " not found")) rfl

theorem lookup_map_update_ne {α : Type} (a b : String) (hne : b ≠ a)
    (f : NDArray α → NDArray α) :
    ∀ l : List (String × NDArray α),
      (l.map fun p => if p.1 = a then (p.1, f p.2) else p).lookup b = l.lookup b
  | [] => rfl
  | (k, v) :: rest => by
    simp only [List.map_cons]
    by_cases hk : k = a
    · subst hk
      rw [show (if (k, v).1 = k then ((k, v).1, f (k, v).2) else (k, v)) = (k, f v) from
        if_pos rfl]
      simp only [List.lookup]
      rw [show (b == k) = false from beq_eq_false_iff_ne.mpr hne]
      exact lookup_map_update_ne k b hne f rest
    · rw [show (if (k, v).1 = a then ((k, v).1, f (k, v).2) else (k, v)) = (k, v) from
        if_neg hk]
      simp only [List.lookup]
      cases hbk : (b == k)
      · exact lookup_map_update_ne a b hne f rest
      · rfl

theorem map_fst_update {α : Type} (a : String) (f : NDArray α → NDArray α) :
    ∀ l : List (String × NDArray α),
      (l.map fun p => if p.1 = a then (p.1, f p.2) else p).map Prod.fst = l.map Prod.fst
  | [] => rfl
  | (k, v) :: rest => by
    simp only [List.map_cons]
    by_cases hk : k = a
    · subst hk
      rw [show (if (k, v).1 = k then ((k, v).1, f (k, v).2) else (k, v)) = (k, f v) from
        if_pos rfl]
      simp only [List.map_cons, map_fst_update k f rest]
    · rw [show (if (k, v).1 = a then ((k, v).1, f (k, v).2) else (k, v)) = (k, v) from
        if_neg hk]
      simp only [List.map_cons, map_fst_update a f rest]

/-- C6: a successful `put` writes only into the pre-existing named array at
the selected region: the set of array names is unchanged, every other named
array is untouched, and the target array keeps its shape and dtype while
every element outside the selected region keeps its value. -/
theorem C6_put_frame {α : Type} (st st2 : DictChunkStore α) (a : String)
    (slices : List Slice) (chunk : NDArray α)
    (hok : st.put a slices chunk = (.ok (), st2)) :
    st2.arrays.map Prod.fst = st.arrays.map Prod.fst ∧
    (∀ b, b ≠ a → st2.arrays.lookup b = st.arrays.lookup b) ∧
    (∀ arr, st.arrays.lookup a = some arr →
      ∃ arr2, st2.arrays.lookup a = some arr2 ∧ arr2.shape = arr.shape ∧
        arr2.dtype = arr.dtype ∧
        ∀ idx, coveredIdx slices arr.shape idx = false → arr2.data idx = arr.data idx) := by
  have hst2 : st2 =
      ⟨st.arrays.map fun p => if p.1 = a then (p.1, setSlice p.2 slices chunk) else p⟩ := by
    rcases hm : chunk_metadata a slices (none : Option Nat) (some chunk) with e1 | v
    · simp [DictChunkStore.put, hm] at hok
    · rcases hg : st.get a slices chunk.dtype with e2 | w
      · simp [DictChunkStore.put, hm, hg] at hok
      · simp [DictChunkStore.put, hm, hg] at hok
        exact hok.symm
  subst hst2
  refine ⟨map_fst_update a (fun arr0 => setSlice arr0 slices chunk) st.arrays,
    fun b hb => lookup_map_update_ne a b hb (fun arr0 => setSlice arr0 slices chunk) st.arrays,
    fun arr harr => ⟨setSlice arr slices chunk, ?_, rfl, rfl, ?_⟩⟩
  · rw [lookup_map_update a (fun arr0 => setSlice arr0 slices chunk) st.arrays, harr]
    rfl
  · intro idx hout
    simp [setSlice, hout]

/-- Witness for C6: a successful put on a one-array store at the region 1:2
of a length-3 vector. -/
theorem C6_put_frame_witness :
    ([("v", setSlice ⟨[3], 2, fun _ => (5 : Nat)⟩ [⟨1, 2, 1⟩] ⟨[1], 2, fun _ => 9⟩)] :
        List (String × NDArray Nat)).map Prod.fst =
      ([("v", (⟨[3], 2, fun _ => (5 : Nat)⟩ : NDArray Nat))]).map Prod.fst ∧
    (∀ b, b ≠ "v" →
      ([("v", setSlice ⟨[3], 2, fun _ => (5 : Nat)⟩ [⟨1, 2, 1⟩] ⟨[1], 2, fun _ => 9⟩)] :
        List (String × NDArray Nat)).lookup b =
      ([("v", (⟨[3], 2, fun _ => (5 : Nat)⟩ : NDArray Nat))]).lookup b) ∧
    (∀ arr, ([("v", (⟨[3], 2, fun _ => (5 : Nat)⟩ : NDArray Nat))]).lookup "v" = some arr →
      ∃ arr2,
        ([("v", setSlice ⟨[3], 2, fun _ => (5 : Nat)⟩ [⟨1, 2, 1⟩] ⟨[1], 2, fun _ => 9⟩)] :
          List (String × NDArray Nat)).lookup "v" = some arr2 ∧
        arr2.shape = arr.shape ∧ arr2.dtype = arr.dtype ∧
        ∀ idx, coveredIdx [⟨1, 2, 1⟩] arr.shape idx = false → arr2.data idx = arr.data idx) :=
  C6_put_frame ⟨[("v", ⟨[3], 2, fun _ => 5⟩)]⟩
    ⟨[("v", setSlice ⟨[3], 2, fun _ => 5⟩ [⟨1, 2, 1⟩] ⟨[1], 2, fun _ => 9⟩)]⟩
    "v" [⟨1, 2, 1⟩] ⟨[1], 2, fun _ => 9⟩ rfl

theorem weights_warning (known : List String) (arg : WeightNamesArg)
    (hknown : known ≠ []) (hsel : (weights_keep_set known arg).1 = []) :
    warnNoValidWeights ∈ (weights_keep_set known arg).2 := by
  unfold weights_keep_set at hsel ⊢
  by_cases hc : (weightSelection known (resolveWeightNames known arg)).1 = []
  · rw [if_pos ⟨hknown, hc⟩] at hsel ⊢
    exact List.mem_append_right _ (List.mem_singleton.mpr rfl)
  · rw [if_neg (fun h => hc h.2)] at hsel
    exact absurd hsel hc

/-- C7 counterexample: when the known-weights table is empty (possible when
the file supplies an empty `weights_description`), an empty name list gives
an empty selection — so materializing the weights yields the constant-1.0
fallback instead of the stored weights — yet the setter logs no warning at
all: the fallback is silent, contradicting the claim as stated. -/
theorem C7_weights_fallback_counterexample :
    (weights_keep_set [] (.names [])).1 = [] ∧
    (extract_weights (weights_keep_set [] (.names [])).1
        ⟨[2, 2], float32, fun _ => 5⟩).data [0, 0] = 1 ∧
    (weights_keep_set [] (.names [])).2 = [] := by
  refine ⟨rfl, rfl, rfl⟩

/-- C7 (amended): when the weight selection list is empty, materializing the
weights applies the transform with an empty selection, which returns a
constant-1.0 float32 array of the same shape as the underlying weights data;
and provided the known-weights table is non-empty (as H5DataV3.__init__
guarantees with its default table when the file has no weights description),
the fallback is reported via the logged no-valid-weights warning. -/
theorem C7_weights_fallback (known : List String) (arg : WeightNamesArg)
    (w : NDArray Rat) (hknown : known ≠ [])
    (hsel : (weights_keep_set known arg).1 = []) :
    (extract_weights (weights_keep_set known arg).1 w).shape = w.shape ∧
    (extract_weights (weights_keep_set known arg).1 w).dtype = float32 ∧
    (∀ idx, (extract_weights (weights_keep_set known arg).1 w).data idx = 1) ∧
    warnNoValidWeights ∈ (weights_keep_set known arg).2 := by
  rw [hsel]
  exact ⟨rfl, rfl, fun idx => rfl, weights_warning known arg hknown hsel⟩

/-- Witness for the amended C7: the default known-weights table with a bogus
requested name gives an empty selection, an all-ones transform and the
logged fallback warning. -/
theorem C7_weights_fallback_witness :
    (extract_weights (weights_keep_set WEIGHT_NAMES (.names ["bogus"])).1
        ⟨[2], float32, fun _ => 5⟩).shape = NDArray.shape ⟨[2], float32, fun _ => (5 : Rat)⟩ ∧
    (extract_weights (weights_keep_set WEIGHT_NAMES (.names ["bogus"])).1
        ⟨[2], float32, fun _ => 5⟩).dtype = float32 ∧
    (∀ idx, (extract_weights (weights_keep_set WEIGHT_NAMES (.names ["bogus"])).1
        ⟨[2], float32, fun _ => 5⟩).data idx = 1) ∧
    warnNoValidWeights ∈ (weights_keep_set WEIGHT_NAMES (.names ["bogus"])).2 :=
  C7_weights_fallback WEIGHT_NAMES (.names ["bogus"]) ⟨[2], float32, fun _ => 5⟩
    (by decide) (by decide)

/-- C8: `get_with_fallback` tries each candidate sensor name in the given
order and returns the value of the first name that resolves; when no
candidate resolves it fails with a sensor lookup error (as used by the
H5DataV3 temperature, pressure, humidity and wind properties). -/
theorem C8_get_with_fallback {V : Type} (cache : SensorCache V) (logical : String) :
    (∀ (names : List String) (k : Nat) (nk : String) (v : V),
      (∀ m ∈ names.take k, cache.resolve m = none) →
      names[k]? = some nk → cache.resolve nk = some v →
      cache.get_with_fallback logical names = .ok v) ∧
    (∀ names : List String, (∀ m ∈ names, cache.resolve m = none) →
      ∃ msg, cache.get_with_fallback logical names = .error (.sensorLookupFailure msg)) := by
  constructor
  · intro names
    induction names with
    | nil => intro k nk v _ hk; simp at hk
    | cons n rest ih =>
      intro k nk v hbefore hk hv
      cases k with
      | zero =>
        simp only [List.getElem?_cons_zero, Option.some.injEq] at hk
        subst hk
        simp [SensorCache.get_with_fallback, hv]
      | succ k0 =>
        have hn : cache.resolve n = none := by
          apply hbefore
          simp [List.take_succ_cons]
        simp only [List.getElem?_cons_succ] at hk
        simp only [SensorCache.get_with_fallback, hn]
        exact ih k0 nk v (fun m hm => hbefore m (by simp [List.take_succ_cons, hm])) hk hv
  · intro names hall
    induction names with
    | nil => exact ⟨_, rfl⟩
    | cons n rest ih =>
      have hn : cache.resolve n = none := hall n (by simp)
      simp only [SensorCache.get_with_fallback, hn]
      exact ih fun m hm => hall m (by simp [hm])

/-- Witness for C8, scenario D of the spec: with only sensor B resolving,
the fallback lookup over A then B returns the value of B; over A and C it
fails with the sensor lookup error. -/
theorem C8_get_with_fallback_witness :
    SensorCache.get_with_fallback
        ⟨fun s => if s = "B" then some (42 : Nat) else none⟩ "temperature" ["A", "B"] =
      .ok 42 ∧
    ∃ msg,
      SensorCache.get_with_fallback
          ⟨fun s => if s = "B" then some (42 : Nat) else none⟩ "temperature" ["A", "C"] =
        .error (.sensorLookupFailure msg) :=
  ⟨(C8_get_with_fallback ⟨fun s => if s = "B" then some (42 : Nat) else none⟩
        "temperature").1
      ["A", "B"] 1 "B" 42 (by decide) (by decide) (by decide),
    (C8_get_with_fallback ⟨fun s => if s = "B" then some (42 : Nat) else none⟩
        "temperature").2
      ["A", "C"] (by decide)⟩

theorem broadcastDim_self (a : Nat) : broadcastDim a a = some a := by
  simp [broadcastDim]

theorem broadcastDim_one (b : Nat) : broadcastDim b 1 = some b := by
  by_cases hb : b = 1 <;> simp [broadcastDim, hb]

theorem broadcastShape_trailing_one (t f b : Nat) :
    broadcastShape [t, f, b] [t, f, 1] = some [t, f, b] := by
  simp [broadcastShape, broadcastDims, broadcastDim_self, broadcastDim_one]

/-- C10: every VisFlagsWeights satisfies the shape invariant: construction
raises a ValueError when the three shapes differ, the shape property always
equals the visibility shape, and ChunkStoreVisFlagsWeights preserves the
invariant by broadcasting the per-channel weights over a new trailing axis so
the combined weights keep the visibility shape. -/
theorem C10_vfw_shape_invariant :
    (∀ (vis flags weights : NDArray Rat) (name : String) (x : VisFlagsWeights),
      VisFlagsWeights.make vis flags weights name = .ok x →
      x.vis.shape = x.flags.shape ∧ x.flags.shape = x.weights.shape ∧
        x.shape = x.vis.shape) ∧
    (∀ (vis flags weights : NDArray Rat) (name : String),
      ¬ (vis.shape = flags.shape ∧ flags.shape = weights.shape) →
      ∃ m, VisFlagsWeights.make vis flags weights name = .error m) ∧
    (∀ (read : String → List Nat → Rat) (baseName : String)
        (chunkInfo : List (String × ChunkInfo)) (t f b dtv dtf dtw dtc : Nat),
      chunkInfo.lookup "correlator_data" = some ⟨[t, f, b], dtv⟩ →
      chunkInfo.lookup "flags" = some ⟨[t, f, b], dtf⟩ →
      chunkInfo.lookup "weights" = some ⟨[t, f, b], dtw⟩ →
      chunkInfo.lookup "weights_channel" = some ⟨[t, f], dtc⟩ →
      ∃ x, ChunkStoreVisFlagsWeights.make read baseName chunkInfo = .ok x ∧
        x.vis.shape = [t, f, b] ∧ x.flags.shape = [t, f, b] ∧
        x.weights.shape = [t, f, b] ∧ x.shape = [t, f, b]) := by
  refine ⟨?_, ?_, ?_⟩
  · intro vis flags weights name x h
    by_cases hc : vis.shape = flags.shape ∧ flags.shape = weights.shape
    · rw [VisFlagsWeights.make, if_pos hc] at h
      cases h
      exact ⟨hc.1, hc.2, rfl⟩
    · rw [VisFlagsWeights.make, if_neg hc] at h
      cases h
  · intro vis flags weights name hc
    exact ⟨_, by rw [VisFlagsWeights.make, if_neg hc]⟩
  · intro read baseName chunkInfo t f b dtv dtf dtw dtc hv hf hw hc
    refine ⟨⟨get_dask_array (read (joinName baseName "correlator_data")) ⟨[t, f, b], dtv⟩,
      get_dask_array (read (joinName baseName "flags")) ⟨[t, f, b], dtf⟩,
      ⟨[t, f, b], dtw, fun idx =>
        (get_dask_array (read (joinName baseName "weights")) ⟨[t, f, b], dtw⟩).data
            (broadcastIndex [t, f, b] idx) *
          (expandDimsLast (get_dask_array (read (joinName baseName "weights_channel"))
              ⟨[t, f], dtc⟩)).data (broadcastIndex [t, f, 1] idx)⟩,
      baseName⟩, ?_, rfl, rfl, rfl, rfl⟩
    simp only [ChunkStoreVisFlagsWeights.make, hv, hf, hw, hc, bind, Except.bind]
    have hb : broadcastMul
        (get_dask_array (read (joinName baseName "weights")) ⟨[t, f, b], dtw⟩)
        (expandDimsLast (get_dask_array (read (joinName baseName "weights_channel"))
          ⟨[t, f], dtc⟩)) =
        some ⟨[t, f, b], dtw, fun idx =>
          (get_dask_array (read (joinName baseName "weights")) ⟨[t, f, b], dtw⟩).data
              (broadcastIndex [t, f, b] idx) *
            (expandDimsLast (get_dask_array (read (joinName baseName "weights_channel"))
                ⟨[t, f], dtc⟩)).data (broadcastIndex [t, f, 1] idx)⟩ := by
      simp only [broadcastMul, get_dask_array, expandDimsLast]
      rw [show ([t, f] ++ [1] : List Nat) = [t, f, 1] from rfl, broadcastShape_trailing_one]
      rfl
    rw [hb]
    show VisFlagsWeights.make _ _ _ _ = _
    rw [VisFlagsWeights.make, if_pos ⟨rfl, rfl⟩]

/-- Witness for C10: a concrete VisFlagsWeights construction, a failing
construction with differing shapes, and a ChunkStoreVisFlagsWeights over a
(2, 3, 4) visibility layout with (2, 3) per-channel weights. -/
theorem C10_vfw_shape_invariant_witness :
    (VisFlagsWeights.shape
        ⟨⟨[2, 3, 4], 1, fun _ => 0⟩, ⟨[2, 3, 4], 2, fun _ => 0⟩,
          ⟨[2, 3, 4], 3, fun _ => 0⟩, "cb"⟩ = [2, 3, 4] → True) ∧
    (∃ m, VisFlagsWeights.make ⟨[2, 3, 4], 1, fun _ => 0⟩ ⟨[2, 3], 2, fun _ => 0⟩
        ⟨[2, 3, 4], 3, fun _ => 0⟩ "cb" = .error m) ∧
    (∃ x, ChunkStoreVisFlagsWeights.make (fun _ _ => 0) "cb"
        [("correlator_data", ⟨[2, 3, 4], 1⟩), ("flags", ⟨[2, 3, 4], 2⟩),
          ("weights", ⟨[2, 3, 4], 3⟩), ("weights_channel", ⟨[2, 3], 4⟩)] = .ok x ∧
      x.vis.shape = [2, 3, 4] ∧ x.flags.shape = [2, 3, 4] ∧
      x.weights.shape = [2, 3, 4] ∧ x.shape = [2, 3, 4]) :=
  ⟨fun _ => trivial,
    C10_vfw_shape_invariant.2.1 ⟨[2, 3, 4], 1, fun _ => 0⟩ ⟨[2, 3], 2, fun _ => 0⟩
      ⟨[2, 3, 4], 3, fun _ => 0⟩ "cb" (by simp),
    C10_vfw_shape_invariant.2.2 (fun _ _ => 0) "cb"
      [("correlator_data", ⟨[2, 3, 4], 1⟩), ("flags", ⟨[2, 3, 4], 2⟩),
        ("weights", ⟨[2, 3, 4], 3⟩), ("weights_channel", ⟨[2, 3], 4⟩)]
      2 3 4 1 2 3 4 rfl rfl rfl rfl⟩

/-! Lemmas on `snap`: membership, optimality, fixed points, monotonicity. -/

/-- Lexicographic preference used by `snap`: `a` is at least as good an
approximation of `e` as `b`. -/
def betterApprox (e a b : Nat) : Prop :=
  natDist e a < natDist e b ∨ (natDist e a = natDist e b ∧ a ≤ b)

theorem betterApprox_refl (e a : Nat) : betterApprox e a a := by
  simp [betterApprox]

theorem betterApprox_trans {e a b c : Nat} (h1 : betterApprox e a b)
    (h2 : betterApprox e b c) : betterApprox e a c := by
  simp only [betterApprox, natDist] at h1 h2 ⊢
  omega

theorem snapFold_mem (e : Nat) : ∀ (rs : List Nat) (init : Nat),
    rs.foldl
      (fun best x =>
        if natDist e x < natDist e best then x
        else if natDist e x = natDist e best ∧ x < best then x
        else best)
      init ∈ init :: rs
  | [], init => by simp
  | r :: rs, init => by
    simp only [List.foldl_cons]
    have h := snapFold_mem e rs
      (if natDist e r < natDist e init then r
        else if natDist e r = natDist e init ∧ r < init then r else init)
    have hv : (if natDist e r < natDist e init then r
        else if natDist e r = natDist e init ∧ r < init then r else init) = r ∨
        (if natDist e r < natDist e init then r
          else if natDist e r = natDist e init ∧ r < init then r else init) = init := by
      split
      · exact Or.inl rfl
      · split
        · exact Or.inl rfl
        · exact Or.inr rfl
    rcases List.mem_cons.mp h with h0 | h0
    · rcases hv with hr | hi
      · rw [h0, hr]; simp
      · rw [h0, hi]; simp
    · simp [List.mem_cons.mpr (Or.inr (List.mem_cons.mpr (Or.inr h0)))]

theorem snapFold_better (e : Nat) : ∀ (rs : List Nat) (init : Nat), ∀ y ∈ init :: rs,
    betterApprox e
      (rs.foldl
        (fun best x =>
          if natDist e x < natDist e best then x
          else if natDist e x = natDist e best ∧ x < best then x
          else best)
        init) y
  | [], init => by
    intro y hy
    have hyi : y = init := by simpa using hy
    rw [hyi]
    exact betterApprox_refl e init
  | r :: rs, init => by
    intro y hy
    simp only [List.foldl_cons]
    set v := (if natDist e r < natDist e init then r
      else if natDist e r = natDist e init ∧ r < init then r else init) with hvdef
    have hvinit : betterApprox e v init := by
      rw [hvdef]
      split
      · exact Or.inl (by assumption)
      · split
        · exact Or.inr ⟨by omega, by omega⟩
        · exact betterApprox_refl e init
    have hvr : betterApprox e v r := by
      rw [hvdef]
      split
      · exact betterApprox_refl e r
      · split
        · exact betterApprox_refl e r
        · simp only [betterApprox]
          omega
    have ih := snapFold_better e rs v
    rcases List.mem_cons.mp hy with h0 | h0
    · exact betterApprox_trans (ih v (by simp)) (h0 ▸ hvinit)
    · rcases List.mem_cons.mp h0 with h1 | h1
      · exact betterApprox_trans (ih v (by simp)) (h1 ▸ hvr)
      · exact ih y (by simp [h1])

theorem snap_mem {ref : List Nat} (href : ref ≠ []) (e : Nat) : snap ref e ∈ ref := by
  cases ref with
  | nil => exact absurd rfl href
  | cons r rs => exact snapFold_mem e rs r

theorem snap_better {ref : List Nat} (e : Nat) : ∀ y ∈ ref, betterApprox e (snap ref e) y := by
  cases ref with
  | nil => intro y hy; cases hy
  | cons r rs => exact snapFold_better e rs r

theorem snap_fixed {ref : List Nat} {e : Nat} (he : e ∈ ref) : snap ref e = e := by
  have hb := snap_better e e he
  simp only [betterApprox, natDist] at hb
  omega

theorem snap_snap (ref : List Nat) (e : Nat) : snap ref (snap ref e) = snap ref e := by
  cases ref with
  | nil => rfl
  | cons r rs => exact snap_fixed (snap_mem (by simp) e)

theorem snap_monotone (ref : List Nat) {e e2 : Nat} (h : e ≤ e2) :
    snap ref e ≤ snap ref e2 := by
  cases ref with
  | nil => exact h
  | cons r rs =>
    by_contra hlt
    have h1 := snap_better e (snap (r :: rs) e2) (snap_mem (by simp) e2)
    have h2 := snap_better e2 (snap (r :: rs) e) (snap_mem (by simp) e)
    simp only [betterApprox, natDist] at h1 h2
    omega

/-! Structural lemmas on `snapInternal`, `lastEvent`, `toRuns` and
`fromRunsEvents`. -/

theorem lastEvent_cons_cons (a b : Nat) (l : List Nat) :
    lastEvent (a :: b :: l) = lastEvent (b :: l) := rfl

theorem snapInternal_cons_cons (ref : List Nat) (e e2 : Nat) (es : List Nat) :
    snapInternal ref (e :: e2 :: es) = snap ref e :: snapInternal ref (e2 :: es) := rfl

theorem snapInternal_ne_nil (ref : List Nat) {l : List Nat} (h : l ≠ []) :
    snapInternal ref l ≠ [] := by
  cases l with
  | nil => exact absurd rfl h
  | cons e rest =>
    cases rest with
    | nil => simp [snapInternal]
    | cons e2 es => simp [snapInternal_cons_cons]

theorem lastEvent_snapInternal (ref : List Nat) : ∀ l : List Nat,
    lastEvent (snapInternal ref l) = lastEvent l
  | [] => rfl
  | [e] => rfl
  | e :: e2 :: es => by
    rw [snapInternal_cons_cons, lastEvent_cons_cons]
    rcases hsi : snapInternal ref (e2 :: es) with h | ⟨a, l2⟩
    · exact absurd hsi (snapInternal_ne_nil ref (by simp))
    · rw [show lastEvent (snap ref e :: a :: l2) = lastEvent (a :: l2) from rfl, ← hsi]
      exact lastEvent_snapInternal ref (e2 :: es)

theorem dropLast_snapInternal (ref : List Nat) : ∀ l : List Nat,
    (snapInternal ref l).dropLast = l.dropLast.map (snap ref)
  | [] => rfl
  | [e] => rfl
  | e :: e2 :: es => by
    rw [snapInternal_cons_cons]
    rcases hsi : snapInternal ref (e2 :: es) with h | ⟨a, l2⟩
    · exact absurd hsi (snapInternal_ne_nil ref (by simp))
    · rw [show (snap ref e :: a :: l2).dropLast = snap ref e :: (a :: l2).dropLast from rfl,
        ← hsi, dropLast_snapInternal ref (e2 :: es)]
      rfl

theorem snapInternal_fixed (ref : List Nat) : ∀ l : List Nat,
    (∀ w ∈ l.dropLast, snap ref w = w) → snapInternal ref l = l
  | [], _ => rfl
  | [e], _ => rfl
  | e :: e2 :: es, h => by
    rw [snapInternal_cons_cons]
    have he : snap ref e = e := h e (by simp)
    rw [he, snapInternal_fixed ref (e2 :: es) fun w hw => h w (by
      rw [show (e :: e2 :: es).dropLast = e :: (e2 :: es).dropLast from rfl]
      exact List.mem_cons.mpr (Or.inr hw))]

theorem fromRunsEvents_eq_map {V : Type} (lastEv : Nat) :
    ∀ rs : List (Nat × Nat × V),
      fromRunsEvents lastEv rs = (rs.map fun r => r.1) ++ [lastEv]
  | [] => rfl
  | r :: rs => by
    simp only [fromRunsEvents, List.map_cons, List.cons_append]
    rw [fromRunsEvents_eq_map lastEv rs]

theorem fromRunsEvents_length {V : Type} (lastEv : Nat) :
    ∀ rs : List (Nat × Nat × V), (fromRunsEvents lastEv rs).length = rs.length + 1
  | [] => rfl
  | r :: rs => by
    simp only [fromRunsEvents, List.length_cons, fromRunsEvents_length lastEv rs]

theorem fromRunsEvents_ne_nil {V : Type} (lastEv : Nat) (rs : List (Nat × Nat × V)) :
    fromRunsEvents lastEv rs ≠ [] := by
  cases rs <;> simp [fromRunsEvents]

theorem toRuns_start_mem {V : Type} : ∀ (es : List Nat) (vs : List V),
    ∀ r ∈ toRuns es vs, r.1 ∈ es.dropLast
  | [], vs => by intro r hr; simp [toRuns] at hr
  | [e], vs => by intro r hr; simp [toRuns] at hr
  | e1 :: e2 :: es, [] => by intro r hr; simp [toRuns] at hr
  | e1 :: e2 :: es, v :: vs => by
    intro r hr
    rw [show toRuns (e1 :: e2 :: es) (v :: vs) = (e1, e2, v) :: toRuns (e2 :: es) vs from rfl]
      at hr
    rw [show (e1 :: e2 :: es).dropLast = e1 :: (e2 :: es).dropLast from rfl]
    rcases List.mem_cons.mp hr with h0 | h0
    · rw [h0]
      exact List.mem_cons.mpr (Or.inl rfl)
    · exact List.mem_cons.mpr (Or.inr (toRuns_start_mem (e2 :: es) vs r h0))

theorem head_le_lastEvent : ∀ (l : List Nat) (b : Nat),
    List.Chain' (· ≤ ·) (b :: l) → b ≤ lastEvent (b :: l)
  | [], b, _ => le_refl b
  | c :: l2, b, h => by
    rw [lastEvent_cons_cons]
    have hbc : b ≤ c := (List.chain'_cons.mp h).1
    exact le_trans hbc (head_le_lastEvent l2 c (List.chain'_cons.mp h).2)

theorem chain_dropLast_le_lastEvent : ∀ l : List Nat,
    List.Chain' (· ≤ ·) l → ∀ w ∈ l.dropLast, w ≤ lastEvent l
  | [], _, w, hw => by simp at hw
  | [e], _, w, hw => by simp at hw
  | a :: b :: l, h, w, hw => by
    rw [show (a :: b :: l).dropLast = a :: (b :: l).dropLast from rfl] at hw
    rw [lastEvent_cons_cons]
    rcases List.mem_cons.mp hw with h0 | h0
    · rw [h0]
      exact le_trans (List.chain'_cons.mp h).1
        (head_le_lastEvent l b (List.chain'_cons.mp h).2)
    · exact chain_dropLast_le_lastEvent (b :: l) (List.chain'_cons.mp h).2 w h0

theorem runHyps_tail (y : Nat) (rest : List Nat)
    (h1 : List.Chain' (· ≤ ·) ((y :: rest).dropLast))
    (h2 : ∀ w ∈ (y :: rest).dropLast, w ≤ lastEvent (y :: rest)) :
    List.Chain' (· ≤ ·) rest.dropLast ∧
      ∀ w ∈ rest.dropLast, w ≤ lastEvent rest := by
  cases rest with
  | nil => exact ⟨List.chain'_nil, by simp⟩
  | cons r1 rest2 =>
    rw [show (y :: r1 :: rest2).dropLast = y :: (r1 :: rest2).dropLast from rfl] at h1 h2
    refine ⟨(List.chain'_cons'.mp h1).2, fun w hw => ?_⟩
    have := h2 w (List.mem_cons.mpr (Or.inr hw))
    rwa [lastEvent_cons_cons] at this

theorem head_le_headD (y : Nat) (rest : List Nat)
    (h1 : List.Chain' (· ≤ ·) ((y :: rest).dropLast))
    (h2 : ∀ w ∈ (y :: rest).dropLast, w ≤ lastEvent (y :: rest)) :
    y ≤ rest.headD y := by
  cases rest with
  | nil => exact le_refl y
  | cons r1 rest2 =>
    cases rest2 with
    | nil =>
      have := h2 y (by simp)
      simpa [lastEvent] using this
    | cons r2 rest3 =>
      rw [show (y :: r1 :: r2 :: rest3).dropLast =
        y :: r1 :: (r2 :: rest3).dropLast from rfl] at h1
      exact (List.chain'_cons.mp h1).1

theorem toRuns_fromRuns_id {V : Type} : ∀ (es : List Nat) (vs : List V),
    List.Chain' (· < ·) es → es.length = vs.length + 1 →
    ((toRuns es vs).filter (fun r => r.1 < r.2.1) = toRuns es vs) ∧
    fromRunsEvents (lastEvent es) (toRuns es vs) = es ∧
    fromRunsValues (toRuns es vs) = vs
  | [], vs, _, hlen => by simp at hlen
  | [e], [], _, _ => ⟨rfl, rfl, rfl⟩
  | [e], v :: vs, _, hlen => by simp at hlen
  | e1 :: e2 :: es, [], _, hlen => by simp at hlen
  | e1 :: e2 :: es, v :: vs, hch, hlen => by
    have h12 : e1 < e2 := (List.chain'_cons.mp hch).1
    have ih := toRuns_fromRuns_id (e2 :: es) vs (List.chain'_cons.mp hch).2
      (by simpa using hlen)
    rw [show toRuns (e1 :: e2 :: es) (v :: vs) = (e1, e2, v) :: toRuns (e2 :: es) vs from rfl]
    refine ⟨?_, ?_, ?_⟩
    · rw [List.filter_cons_of_pos (by simpa using h12), ih.1]
    · rw [show fromRunsEvents (lastEvent (e1 :: e2 :: es)) ((e1, e2, v) :: toRuns (e2 :: es) vs) =
        e1 :: fromRunsEvents (lastEvent (e1 :: e2 :: es)) (toRuns (e2 :: es) vs) from rfl,
        lastEvent_cons_cons, ih.2.1]
    · rw [show fromRunsValues ((e1, e2, v) :: toRuns (e2 :: es) vs) =
        v :: fromRunsValues (toRuns (e2 :: es) vs) from rfl, ih.2.2]

theorem alignRuns_lb {V : Type} : ∀ (xs : List Nat) (vs : List V) (x : Nat),
    List.Chain' (· ≤ ·) xs.dropLast →
    (∀ w ∈ xs.dropLast, w ≤ lastEvent xs) →
    ∀ z ∈ fromRunsEvents (lastEvent (x :: xs))
        ((toRuns (x :: xs) vs).filter fun r => r.1 < r.2.1),
      x ≤ z ∨ xs.headD x ≤ z
  | [], vs, x, _, _ => by
    intro z hz
    rw [show toRuns [x] vs = ([] : List (Nat × Nat × V)) from by cases vs <;> rfl] at hz
    simp only [List.filter_nil, fromRunsEvents, List.mem_singleton] at hz
    rw [hz]
    exact Or.inl (le_refl _)
  | y :: rest, [], x, h1, h2 => by
    intro z hz
    rw [show toRuns (x :: y :: rest) ([] : List V) = [] from rfl] at hz
    simp only [List.filter_nil, fromRunsEvents, List.mem_singleton] at hz
    rw [hz, lastEvent_cons_cons]
    refine Or.inr ?_
    show y ≤ lastEvent (y :: rest)
    cases rest with
    | nil => exact le_refl y
    | cons r1 rest2 => exact h2 y (by rw [show (y :: r1 :: rest2).dropLast =
        y :: (r1 :: rest2).dropLast from rfl]; simp)
  | y :: rest, v :: vs, x, h1, h2 => by
    intro z hz
    have hyps := runHyps_tail y rest h1 h2
    have hhead := head_le_headD y rest h1 h2
    have ihlb := alignRuns_lb rest vs y hyps.1 hyps.2
    rw [show toRuns (x :: y :: rest) (v :: vs) = (x, y, v) :: toRuns (y :: rest) vs from rfl]
      at hz
    rw [lastEvent_cons_cons] at hz
    by_cases hxy : x < y
    · rw [List.filter_cons_of_pos (by simpa using hxy)] at hz
      rw [show fromRunsEvents (lastEvent (y :: rest))
          ((x, y, v) :: (toRuns (y :: rest) vs).filter (fun r => r.1 < r.2.1)) =
          x :: fromRunsEvents (lastEvent (y :: rest))
            ((toRuns (y :: rest) vs).filter (fun r => r.1 < r.2.1)) from rfl] at hz
      rcases List.mem_cons.mp hz with h0 | h0
      · exact Or.inl (le_of_eq h0.symm)
      · rcases ihlb z h0 with hy | hr
        · exact Or.inr hy
        · exact Or.inr (le_trans hhead hr)
    · rw [List.filter_cons_of_neg (by simpa using hxy)] at hz
      rcases ihlb z hz with hy | hr
      · exact Or.inr hy
      · exact Or.inr (le_trans hhead hr)

theorem alignRuns_chain {V : Type} : ∀ (xs : List Nat) (vs : List V) (x : Nat),
    List.Chain' (· ≤ ·) xs.dropLast →
    (∀ w ∈ xs.dropLast, w ≤ lastEvent xs) →
    List.Chain' (· < ·) (fromRunsEvents (lastEvent (x :: xs))
      ((toRuns (x :: xs) vs).filter fun r => r.1 < r.2.1))
  | [], vs, x, _, _ => by
    rw [show toRuns [x] vs = ([] : List (Nat × Nat × V)) from by cases vs <;> rfl]
    simp [fromRunsEvents]
  | y :: rest, [], x, h1, h2 => by
    rw [show toRuns (x :: y :: rest) ([] : List V) = [] from rfl]
    simp [fromRunsEvents]
  | y :: rest, v :: vs, x, h1, h2 => by
    have hyps := runHyps_tail y rest h1 h2
    have hhead := head_le_headD y rest h1 h2
    have ihch := alignRuns_chain rest vs y hyps.1 hyps.2
    have ihlb := alignRuns_lb rest vs y hyps.1 hyps.2
    rw [show toRuns (x :: y :: rest) (v :: vs) = (x, y, v) :: toRuns (y :: rest) vs from rfl,
      lastEvent_cons_cons]
    by_cases hxy : x < y
    · rw [List.filter_cons_of_pos (by simpa using hxy)]
      rw [show fromRunsEvents (lastEvent (y :: rest))
          ((x, y, v) :: (toRuns (y :: rest) vs).filter (fun r => r.1 < r.2.1)) =
          x :: fromRunsEvents (lastEvent (y :: rest))
            ((toRuns (y :: rest) vs).filter (fun r => r.1 < r.2.1)) from rfl]
      refine List.chain'_cons'.mpr ⟨fun z hzh => ?_, ihch⟩
      have hzmem := List.mem_of_mem_head? hzh
      rcases ihlb z hzmem with hy | hr
      · exact lt_of_lt_of_le hxy hy
      · exact lt_of_lt_of_le hxy (le_trans hhead hr)
    · rw [List.filter_cons_of_neg (by simpa using hxy)]
      exact ihch

theorem dropLast_append_singleton {β : Type} (a : β) : ∀ l : List β, (l ++ [a]).dropLast = l
  | [] => rfl
  | x :: xs => by
    rw [List.cons_append]
    rcases hx : xs ++ [a] with h | ⟨b, l2⟩
    · simp at hx
    · rw [show (x :: b :: l2).dropLast = x :: (b :: l2).dropLast from rfl, ← hx,
        dropLast_append_singleton a xs]

theorem mem_tail_filter {β : Type} (p : β → Bool) : ∀ (l : List β) (z : β),
    z ∈ (l.filter p).tail → z ∈ l.tail
  | [], z, hz => by simp at hz
  | a :: l, z, hz => by
    by_cases hp : p a
    · rw [List.filter_cons_of_pos hp] at hz
      simp only [List.tail_cons] at hz ⊢
      exact List.mem_of_mem_filter hz
    · rw [List.filter_cons_of_neg hp] at hz
      simp only [List.tail_cons]
      exact List.mem_of_mem_filter (List.mem_of_mem_tail hz)

theorem toRuns_tail_start_mem {V : Type} (x : Nat) (xs : List Nat) (vs : List V) :
    ∀ r ∈ (toRuns (x :: xs) vs).tail, r.1 ∈ xs.dropLast := by
  intro r hr
  cases xs with
  | nil =>
    rw [show toRuns [x] vs = ([] : List (Nat × Nat × V)) from by cases vs <;> rfl] at hr
    simp at hr
  | cons y rest =>
    cases vs with
    | nil =>
      rw [show toRuns (x :: y :: rest) ([] : List V) = [] from rfl] at hr
      simp at hr
    | cons v vs2 =>
      rw [show toRuns (x :: y :: rest) (v :: vs2) = (x, y, v) :: toRuns (y :: rest) vs2
        from rfl] at hr
      simp only [List.tail_cons] at hr
      exact toRuns_start_mem (y :: rest) vs2 r hr

theorem align_self {V : Type} (d : CategoricalData V) (ref : List Nat)
    (hch : List.Chain' (· < ·) d.events)
    (hlen : d.events.length = d.values.length + 1)
    (hfix : ∀ w ∈ d.events.tail.dropLast, snap ref w = w) :
    d.align ref = d := by
  obtain ⟨es, vs⟩ := d
  cases es with
  | nil => simp at hlen
  | cons f0 frest =>
    simp only [CategoricalData.align]
    have hsi : snapInternal ref frest = frest :=
      snapInternal_fixed ref frest (by simpa using hfix)
    rw [hsi]
    have h := toRuns_fromRuns_id (f0 :: frest) vs (by simpa using hch) (by simpa using hlen)
    rw [h.1, h.2.1, h.2.2]

theorem align_hyp1 (ref : List Nat) {e0 : Nat} {rest : List Nat}
    (hc : List.Chain' (· < ·) (e0 :: rest)) :
    List.Chain' (· ≤ ·) (snapInternal ref rest).dropLast := by
  rw [dropLast_snapInternal]
  refine (List.chain'_map (snap ref)).mpr ?_
  have h1 : List.Chain' (· ≤ ·) rest := (hc.tail).imp fun _ _ h => le_of_lt h
  have h2 : List.Chain' (· ≤ ·) rest.dropLast := h1.prefix (List.dropLast_prefix rest)
  exact h2.imp fun _ _ h => snap_monotone ref h

theorem align_hyp2 (ref : List Nat) {e0 : Nat} {rest : List Nat}
    (hc : List.Chain' (· < ·) (e0 :: rest))
    (href : ∀ r ∈ ref, r ≤ lastEvent (e0 :: rest)) :
    ∀ w ∈ (snapInternal ref rest).dropLast, w ≤ lastEvent (snapInternal ref rest) := by
  intro w hw
  rw [dropLast_snapInternal] at hw
  obtain ⟨r0, hr0, hw0⟩ := List.mem_map.mp hw
  rw [lastEvent_snapInternal]
  cases rest with
  | nil => simp at hr0
  | cons a l =>
    rw [← hw0]
    cases h0 : ref with
    | nil =>
      rw [show snap [] r0 = r0 from rfl]
      exact chain_dropLast_le_lastEvent (a :: l) ((hc.tail).imp fun _ _ h => le_of_lt h) r0 hr0
    | cons rr rrs =>
      have hmem : snap (rr :: rrs) r0 ∈ rr :: rrs := snap_mem (by simp) r0
      have := href (snap (rr :: rrs) r0) (h0 ▸ hmem)
      rwa [lastEvent_cons_cons] at this

/-- C9: `CategoricalData.align` is idempotent: aligning to a reference event
sequence and then aligning the result to the same reference again yields the
same events and values as aligning once. The categorical data satisfies its
invariant (strictly increasing events) and the reference events lie within
the domain (at most the final event), as holds for the scan-event references
used on the label and target sensors in H5DataV3. -/
theorem C9_align_idempotent {V : Type} (c : CategoricalData V) (ref : List Nat)
    (hc : List.Chain' (· < ·) c.events)
    (href : ∀ r ∈ ref, r ≤ lastEvent c.events) :
    (c.align ref).align ref = c.align ref := by
  obtain ⟨evts, vals⟩ := c
  cases evts with
  | nil => rfl
  | cons e0 rest =>
    have hc2 : List.Chain' (· < ·) (e0 :: rest) := hc
    have href2 : ∀ r ∈ ref, r ≤ lastEvent (e0 :: rest) := href
    apply align_self
    · show List.Chain' (· < ·)
        (CategoricalData.align ⟨e0 :: rest, vals⟩ ref).events
      simp only [CategoricalData.align]
      exact alignRuns_chain (snapInternal ref rest) vals e0
        (align_hyp1 ref hc2) (align_hyp2 ref hc2 href2)
    · simp only [CategoricalData.align]
      rw [fromRunsEvents_length, fromRunsValues, List.length_map]
    · intro w hw
      simp only [CategoricalData.align] at hw
      rcases hrc : (toRuns (e0 :: snapInternal ref rest) vals).filter
          (fun r => r.1 < r.2.1) with h | ⟨r0, rs⟩
      · rw [hrc] at hw
        simp [fromRunsEvents] at hw
      · rw [hrc] at hw
        rw [show fromRunsEvents (lastEvent (e0 :: snapInternal ref rest)) (r0 :: rs) =
          r0.1 :: fromRunsEvents (lastEvent (e0 :: snapInternal ref rest)) rs from rfl] at hw
        simp only [List.tail_cons] at hw
        rw [fromRunsEvents_eq_map, dropLast_append_singleton] at hw
        obtain ⟨r, hr, hw0⟩ := List.mem_map.mp hw
        have hrtail : r ∈ ((toRuns (e0 :: snapInternal ref rest) vals).filter
            (fun r => r.1 < r.2.1)).tail := by
          rw [hrc]
          simpa using hr
        have hr2 := mem_tail_filter _ _ r hrtail
        have hr3 := toRuns_tail_start_mem e0 (snapInternal ref rest) vals r hr2
        rw [dropLast_snapInternal] at hr3
        obtain ⟨r4, _, hr4⟩ := List.mem_map.mp hr3
        rw [← hw0, ← hr4, snap_snap]

/-- Witness for C9, scenario B of the spec: events `[0, 3, 7, 10]` with
values slew, track, slew, aligned to the reference events `[0, 4, 10]`. -/
theorem C9_align_idempotent_witness :
    ((⟨[0, 3, 7, 10], ["slew", "track", "slew"]⟩ : CategoricalData String).align
        [0, 4, 10]).align [0, 4, 10] =
      (⟨[0, 3, 7, 10], ["slew", "track", "slew"]⟩ : CategoricalData String).align
        [0, 4, 10] :=
  C9_align_idempotent ⟨[0, 3, 7, 10], ["slew", "track", "slew"]⟩ [0, 4, 10]
    (by simp [List.chain'_cons]) (by decide)

end Katdal
